import Mathlib

/-!
# Verification of molior's projectversion lifecycle and backend worker

Shallow embedding of `molior/api/projectversion.py` and
`molior/molior/worker_backend.py`:

* project versions, their dependency graph and the lifecycle operations
  (add/remove dependency, lock, mark-delete, create) from
  `api/projectversion.py`;
* the backend worker's crash recovery (`startup_scheduling`) and the
  `_failed` handler from `molior/worker_backend.py`.

The relational store is modelled as explicit lists of records; the aptly
command queue is a list of commands appended by the handlers; SQLAlchemy
`.first()` lookups become `List.find?`; a handler that can raise a Python
exception returns an `Option` (or an explicit result carrying the state
committed so far).  Error responses are classified by the error kind the
message expresses (`LockedResource`, `InvalidInput`, `CycleDetected`,
`NotFound`, `Conflict`).
-/

namespace Molior

/-- Error kinds produced by the API handlers.  Each constructor corresponds
to one family of `ErrorResponse(400, ...)` return sites in
`api/projectversion.py`; `conflict` carries the list of names the message
embeds (the blocking dependents of mark-delete; empty for the other conflict
messages).  `exception` models an uncaught Python exception. -/
inductive ApiError where
  | notFound
  | invalidInput
  | lockedResource
  | cycleDetected
  | conflict (names : List String)
  | exception
deriving DecidableEq, Repr

/-- Messages put on the aptly (repository publishing) queue. -/
inductive Cmd where
  | init_repository (projectVersionId : Nat) (basemirrorProjectName basemirrorVersionName
      projectName versionName : String) (architectures : List String)
  | drop_publish (basemirrorProjectName basemirrorVersionName
      projectName versionName channel : String)
  | publish (buildId : Nat)
deriving DecidableEq, Repr

/-- A row of the `project` table (the fields the embedded handlers read). -/
structure Project where
  id : Nat
  name : String
deriving DecidableEq, Repr

/-- A row of the `projectversion` table.  `dependencies` is the list of ids
of the project versions this one depends on (the outgoing edges of the
dependency graph, in insertion order, as the ORM relationship presents
them); `basemirrorId` is the self-referential base-mirror link. -/
structure PV where
  id : Nat
  name : String
  projectId : Nat
  basemirrorId : Option Nat
  isLocked : Bool
  isDeleted : Bool
  ciBuildsEnabled : Bool
  dependencies : List Nat
deriving DecidableEq, Repr

/-- The shared store plus the aptly command queue (commands are appended at
the end, matching `aptly_queue.put`). -/
structure Store where
  projects : List Project
  projectversions : List PV
  queue : List Cmd
deriving DecidableEq, Repr

/-- `db_session.query(ProjectVersion).filter(ProjectVersion.id == i).first()` -/
def findPV (s : Store) (i : Nat) : Option PV :=
  s.projectversions.find? (fun p => p.id = i)

/-- `db_session.query(Project).filter(Project.id == i).first()` -/
def findProject (s : Store) (i : Nat) : Option Project :=
  s.projects.find? (fun p => p.id = i)

/-- Name of the project owning a projectversion (`pv.project.name`).
In the ORM the relationship always resolves; a dangling id yields `""`. -/
def projNameOf (s : Store) (p : PV) : String :=
  ((findProject s p.projectId).map Project.name).getD ""

/-- Mutating one projectversion row in place (ORM attribute assignment
followed by `commit`). -/
def updatePV (s : Store) (i : Nat) (f : PV → PV) : Store :=
  { s with projectversions := s.projectversions.map (fun p => if p.id = i then f p else p) }

/-- The outgoing dependency edges of node `i` (`projectv.dependencies`);
an id not present in the store has no edges. -/
def storeAdj (s : Store) (i : Nat) : List Nat :=
  ((findPV s i).map PV.dependencies).getD []

/-! ## `get_projectversion_deps_manually` (api/projectversion.py, lines 12–47)

The source walks the graph with a nested recursive `get_deps`:

```python
deps = []
def get_deps(projectv):
    if not projectv:
        return
    if projectv not in deps and projectversion.id != projectv.id:
        dep = projectversion_to_dict(projectv) if to_dict else projectv
        if dep not in deps:
            deps.append(dep)
    for dep in projectv.dependencies:
        get_deps(dep)
get_deps(projectversion)
```

Nodes are identified by their ids (ids are unique in the store, and the
emitted dicts embed the id, so object/dict equality coincides with id
equality).  The call tree is linearised in the standard way: a worklist
holds the nodes whose frames are still to run, `getDepsGo fuel (v :: rest)`
runs `get_deps(v)` — append `v` unless already present or equal to the
root — and then processes `v`'s children before `rest`, exactly the
depth-first order of the source.  `fuel` bounds the depth of this
linearised recursion; `none` means the fuel was exhausted, i.e. the source
recursion has not returned within that depth.  Note that the source recurses
into the children of *every* node it visits, whether or not the node was
already in `deps`. -/

def getDepsGo (adj : Nat → List Nat) (rootId : Nat) :
    Nat → List Nat → List Nat → Option (List Nat)
  | 0, _, _ => none
  | _fuel+1, [], deps => some deps
  | fuel+1, v :: rest, deps =>
      let deps' := if v ∉ deps ∧ rootId ≠ v then deps ++ [v] else deps
      match getDepsGo adj rootId fuel (adj v) deps' with
      | none => none
      | some deps2 => getDepsGo adj rootId fuel rest deps2

/-- `get_projectversion_deps_manually(projectversion)` over adjacency `adj`,
with recursion-depth budget `fuel`. -/
def get_projectversion_deps_manually (adj : Nat → List Nat) (rootId : Nat)
    (fuel : Nat) : Option (List Nat) :=
  getDepsGo adj rootId fuel [rootId] []

/-- The walk terminates (some fuel suffices). -/
def ManualWalkTerminates (adj : Nat → List Nat) (rootId : Nat) : Prop :=
  ∃ fuel l, get_projectversion_deps_manually adj rootId fuel = some l

/-- Reachability along dependency edges (zero or more edges). -/
inductive Reach (adj : Nat → List Nat) : Nat → Nat → Prop
  | refl (v : Nat) : Reach adj v v
  | head {v w n : Nat} : w ∈ adj v → Reach adj w n → Reach adj v n

/-- The accumulator only grows at the end: the input is a prefix of any
returned list. -/
theorem getDepsGo_extends (adj : Nat → List Nat) (root : Nat) :
    ∀ (fuel : Nat) (ws deps l : List Nat),
      getDepsGo adj root fuel ws deps = some l → deps <+: l := by
  intro fuel
  induction fuel with
  | zero => intro ws deps l h; simp [getDepsGo] at h
  | succ f ih =>
    intro ws deps l h
    match ws with
    | [] =>
      simp [getDepsGo] at h
      exact h ▸ List.prefix_rfl
    | v :: rest =>
      simp only [getDepsGo] at h
      split at h
      · simp at h
      · next deps2 heq =>
        refine List.IsPrefix.trans ?_ ((ih _ _ _ heq).trans (ih _ _ _ h))
        split
        · exact List.prefix_append deps [v]
        · exact List.prefix_rfl

/-- Everything in the result was already in the accumulator or is reachable
from a worklist node and differs from the root. -/
theorem getDepsGo_sound (adj : Nat → List Nat) (root : Nat) :
    ∀ (fuel : Nat) (ws deps l : List Nat),
      getDepsGo adj root fuel ws deps = some l →
      ∀ n ∈ l, n ∈ deps ∨ ((∃ v ∈ ws, Reach adj v n) ∧ n ≠ root) := by
  intro fuel
  induction fuel with
  | zero => intro ws deps l h; simp [getDepsGo] at h
  | succ f ih =>
    intro ws deps l h n hn
    match ws with
    | [] =>
      simp [getDepsGo] at h
      subst h
      exact Or.inl hn
    | v :: rest =>
      simp only [getDepsGo] at h
      split at h
      · simp at h
      · next deps2 heq =>
        rcases ih _ _ _ h n hn with h2 | ⟨⟨u, hu, hr⟩, hnr⟩
        · rcases ih _ _ _ heq n h2 with h1 | ⟨⟨w, hw, hr⟩, hnr⟩
          · by_cases hcond : v ∉ deps ∧ root ≠ v
            · rw [if_pos hcond] at h1
              rcases List.mem_append.mp h1 with h1 | h1
              · exact Or.inl h1
              · have hnv : n = v := by simpa using h1
                subst hnv
                exact Or.inr ⟨⟨n, by simp, Reach.refl n⟩, Ne.symm hcond.2⟩
            · rw [if_neg hcond] at h1
              exact Or.inl h1
          · exact Or.inr ⟨⟨v, by simp, Reach.head hw hr⟩, hnr⟩
        · exact Or.inr ⟨⟨u, by simp [hu], hr⟩, hnr⟩

/-- Every node reachable from a worklist node, other than the root, ends up
in a completed run's result. -/
theorem getDepsGo_complete (adj : Nat → List Nat) (root : Nat) :
    ∀ (fuel : Nat) (ws deps l : List Nat),
      getDepsGo adj root fuel ws deps = some l →
      ∀ v ∈ ws, ∀ n, Reach adj v n → n ≠ root → n ∈ l := by
  intro fuel
  induction fuel with
  | zero => intro ws deps l h; simp [getDepsGo] at h
  | succ f ih =>
    intro ws deps l h v hv n hr hnr
    match ws with
    | [] => simp at hv
    | v0 :: rest =>
      simp only [getDepsGo] at h
      split at h
      · simp at h
      · next deps2 heq =>
        have hpre2 : deps2 <+: l := getDepsGo_extends adj root f rest deps2 l h
        rcases List.mem_cons.mp hv with rfl | hv2
        · cases hr with
          | refl =>
            have hmem : v ∈ (if v ∉ deps ∧ root ≠ v then deps ++ [v] else deps) := by
              split
              · simp
              · next hcond =>
                push_neg at hcond
                by_contra hne
                exact hnr (hcond hne).symm
            exact hpre2.subset ((getDepsGo_extends adj root f _ _ _ heq).subset hmem)
          | head hw hr2 =>
            exact hpre2.subset (ih _ _ _ heq _ hw n hr2 hnr)
        · exact ih _ _ _ h v hv2 n hr hnr

/-- The result has no duplicates when the accumulator had none. -/
theorem getDepsGo_nodup (adj : Nat → List Nat) (root : Nat) :
    ∀ (fuel : Nat) (ws deps l : List Nat),
      getDepsGo adj root fuel ws deps = some l → deps.Nodup → l.Nodup := by
  intro fuel
  induction fuel with
  | zero => intro ws deps l h; simp [getDepsGo] at h
  | succ f ih =>
    intro ws deps l h hd
    match ws with
    | [] => simp [getDepsGo] at h; exact h ▸ hd
    | v :: rest =>
      simp only [getDepsGo] at h
      split at h
      · simp at h
      · next deps2 heq =>
        refine ih _ _ _ h (ih _ _ _ heq ?_)
        split
        · next hcond =>
          rw [List.nodup_append]
          refine ⟨hd, List.nodup_singleton v, fun a ha => ?_⟩
          simp only [List.mem_singleton]
          intro hav
          exact hcond.1 (hav ▸ ha)
        · exact hd

/-- The root never enters the result. -/
theorem getDepsGo_not_root (adj : Nat → List Nat) (root : Nat) :
    ∀ (fuel : Nat) (ws deps l : List Nat),
      getDepsGo adj root fuel ws deps = some l → root ∉ deps → root ∉ l := by
  intro fuel
  induction fuel with
  | zero => intro ws deps l h; simp [getDepsGo] at h
  | succ f ih =>
    intro ws deps l h hd
    match ws with
    | [] => simp [getDepsGo] at h; exact h ▸ hd
    | v :: rest =>
      simp only [getDepsGo] at h
      split at h
      · simp at h
      · next deps2 heq =>
        refine ih _ _ _ h (ih _ _ _ heq ?_)
        split
        · next hcond =>
          simpa using ⟨hd, hcond.2⟩
        · exact hd

/-- More fuel never changes a completed run. -/
theorem getDepsGo_mono (adj : Nat → List Nat) (root : Nat) :
    ∀ (fuel fuel2 : Nat) (ws deps l : List Nat), fuel ≤ fuel2 →
      getDepsGo adj root fuel ws deps = some l →
      getDepsGo adj root fuel2 ws deps = some l := by
  intro fuel
  induction fuel with
  | zero => intro fuel2 ws deps l _ h; simp [getDepsGo] at h
  | succ f ih =>
    intro fuel2 ws deps l hle h
    obtain ⟨f2, rfl⟩ : ∃ g, fuel2 = g + 1 := ⟨fuel2 - 1, by omega⟩
    have hff : f ≤ f2 := by omega
    match ws with
    | [] =>
      simp [getDepsGo] at h ⊢
      exact h
    | v :: rest =>
      simp only [getDepsGo] at h ⊢
      split at h
      · simp at h
      · next deps2 heq =>
        simp only [ih f2 _ _ _ hff heq]
        exact ih f2 _ _ _ hff h

/-- On a graph admitting a rank that strictly decreases along every
dependency edge (in particular, on every acyclic finite graph), some fuel
completes the walk, whatever the worklist and accumulator. -/
theorem getDepsGo_terminates (adj : Nat → List Nat) (root : Nat) (rank : Nat → Nat)
    (hrank : ∀ v, ∀ w ∈ adj v, rank w < rank v) :
    ∀ (b : Nat) (ws : List Nat), (∀ v ∈ ws, rank v < b) →
      ∀ deps, ∃ fuel l, getDepsGo adj root fuel ws deps = some l := by
  intro b
  induction b using Nat.strong_induction_on with
  | _ b ihb =>
    intro ws
    induction ws with
    | nil => exact fun _ deps => ⟨1, deps, rfl⟩
    | cons v0 rest ihw =>
      intro hb deps
      have hv0 : rank v0 < b := hb v0 (by simp)
      obtain ⟨f1, deps2, h1⟩ := ihb (rank v0) hv0 (adj v0) (fun w hw => hrank v0 w hw)
        (if v0 ∉ deps ∧ root ≠ v0 then deps ++ [v0] else deps)
      obtain ⟨f2, l, h2⟩ := ihw (fun v hv => hb v (by simp [hv])) deps2
      refine ⟨max f1 f2 + 1, l, ?_⟩
      simp only [getDepsGo]
      simp only [getDepsGo_mono adj root f1 _ _ _ _ (le_max_left f1 f2) h1]
      exact getDepsGo_mono adj root f2 _ _ _ _ (le_max_right f1 f2) h2

/-- Diamond-shaped graph: 0 → 1 → 3, 0 → 2 → 3 (node 3 reachable twice). -/
def diamondAdj : Nat → List Nat := fun v =>
  if v = 0 then [1, 2] else if v = 1 then [3] else if v = 2 then [3] else []

/-- Two-node dependency cycle: 0 → 1 → 0. -/
def cycAdj : Nat → List Nat := fun v =>
  if v = 0 then [1] else if v = 1 then [0] else []

/-- Acyclic one-edge graph 0 → 1, with a rank decreasing along the edge. -/
def chainAdj : Nat → List Nat := fun v => if v = 0 then [1] else []

def chainRank : Nat → Nat := fun v => if v = 0 then 1 else 0

/-- On the two-node cycle every node the walk visits has a nonempty child
list, so the worklist never empties and every fuel is exhausted. -/
theorem cycAdj_go_none : ∀ (fuel : Nat) (ws deps : List Nat),
    (∀ v ∈ ws, v = 0 ∨ v = 1) → ws ≠ [] →
    getDepsGo cycAdj 0 fuel ws deps = none := by
  intro fuel
  induction fuel with
  | zero => intro ws deps _ _; rfl
  | succ f ih =>
    intro ws deps hmem hne
    match ws with
    | [] => exact absurd rfl hne
    | v :: rest =>
      have hv := hmem v (by simp)
      have h1 : ∀ w ∈ cycAdj v, w = 0 ∨ w = 1 := by
        intro w hw
        rcases hv with rfl | rfl
        · simp [cycAdj] at hw
          exact Or.inr hw
        · simp [cycAdj] at hw
          exact Or.inl hw
      have h2 : cycAdj v ≠ [] := by
        rcases hv with rfl | rfl <;> simp [cycAdj]
      have hchild := ih (cycAdj v)
        (if v ∉ deps ∧ 0 ≠ v then deps ++ [v] else deps) h1 h2
      simp only [getDepsGo]
      split
      · rfl
      · next deps2 heq => exact Option.noConfusion (hchild.symm.trans heq)

/-- C5 counterexample: on the two-node cyclic graph 0 ↔ 1 the walk of
`get_projectversion_deps_manually` never returns, whatever the recursion
budget: the membership test guards only the append to `deps`, not the
recursion into the children, so the claim that the visited-set dedup
guarantees termination on cyclic graphs is false. -/
theorem C5_counterexample : ¬ ManualWalkTerminates cycAdj 0 := by
  rintro ⟨fuel, l, h⟩
  simp only [get_projectversion_deps_manually] at h
  rw [cycAdj_go_none fuel [0] [] (by decide) (by simp)] at h
  exact Option.noConfusion h

/-- C5 (amended): the walk of `get_projectversion_deps_manually` terminates
whenever the dependency graph admits a rank strictly decreasing along every
edge — i.e. on every acyclic dependency graph — but on a graph with a cycle
reachable from the root it does not terminate. -/
theorem C5_walk_terminates_acyclic (adj : Nat → List Nat) (root : Nat)
    (rank : Nat → Nat) (hrank : ∀ v, ∀ w ∈ adj v, rank w < rank v) :
    ManualWalkTerminates adj root := by
  obtain ⟨fuel, l, h⟩ := getDepsGo_terminates adj root rank hrank (rank root + 1) [root]
    (by intro v hv; simp at hv; subst hv; omega) []
  exact ⟨fuel, l, h⟩

/-- C5 witness: the walk terminates on the concrete acyclic graph 0 → 1. -/
theorem C5_witness : ManualWalkTerminates chainAdj 0 :=
  C5_walk_terminates_acyclic chainAdj 0 chainRank (by
    intro v w hw
    by_cases h0 : v = 0
    · subst h0
      simp [chainAdj] at hw
      subst hw
      simp [chainRank]
    · simp [chainAdj, h0] at hw)

/-- C4: whenever `get_projectversion_deps_manually` returns a list, the root
is absent from it, no node appears twice, and its entries are exactly the
nodes reachable from the root along dependency edges (the root excepted) —
so diamond-shaped reachability yields a single entry per node. -/
theorem C4_transitive_deps_exact (adj : Nat → List Nat) (root fuel : Nat)
    (l : List Nat) (h : get_projectversion_deps_manually adj root fuel = some l) :
    root ∉ l ∧ l.Nodup ∧ ∀ n, n ∈ l ↔ (Reach adj root n ∧ n ≠ root) := by
  have h0 : getDepsGo adj root fuel [root] [] = some l := h
  refine ⟨getDepsGo_not_root adj root fuel _ _ _ h0 (List.not_mem_nil root),
    getDepsGo_nodup adj root fuel _ _ _ h0 List.nodup_nil, fun n => ⟨?_, ?_⟩⟩
  · intro hn
    rcases getDepsGo_sound adj root fuel _ _ _ h0 n hn with hc | ⟨⟨v, hv, hr⟩, hnr⟩
    · exact absurd hc (List.not_mem_nil n)
    · have hvr : v = root := by simpa using hv
      exact ⟨hvr ▸ hr, hnr⟩
  · rintro ⟨hr, hnr⟩
    exact getDepsGo_complete adj root fuel _ _ _ h0 root (by simp) n hr hnr

/-- C4 witness: on the diamond graph the walk returns `[1, 3, 2]` — node 3,
reachable along two paths, appears once, and the root 0 is absent. -/
theorem C4_witness :
    0 ∉ [1, 3, 2] ∧ List.Nodup [1, 3, 2] ∧
      ∀ n, n ∈ [1, 3, 2] ↔ (Reach diamondAdj 0 n ∧ n ≠ 0) :=
  C4_transitive_deps_exact diamondAdj 0 6 [1, 3, 2] (by decide)

/-! ## The dependency-id closure used by the cycle check

`post_projectversion_dependency` calls `get_projectversion_deps(dependency_id,
session)`, imported from `molior.model.projectversion` — a file not under
src/.  It is modelled from the spec below. -/

/-- Append `x` unless already present. -/
def addNew (l : List Nat) (x : Nat) : List Nat := if x ∈ l then l else l ++ [x]

/-- One saturation step: extend `cur` by the direct dependencies of all its
members. -/
def depsLevel (s : Store) (cur : List Nat) : List Nat :=
  cur.foldl (fun a i => (storeAdj s i).foldl addNew a) cur

def depsIter (s : Store) : Nat → List Nat → List Nat
  | 0, cur => cur
  | n+1, cur => depsIter s n (depsLevel s cur)

/-- Modelled from the spec: `get_projectversion_deps` (imported in
`api/projectversion.py` from `molior.model.projectversion`, which is not in
src/).  Per spec §4.1, `wouldCreateCycle(candidateDependencyId, targetId)`
computes `transitiveDependencies(candidateDependency)` and tests whether
`targetId` appears in that set; accordingly this returns the ids of all
projectversions the given one transitively depends on, saturating the
direct-dependency list as many times as there are rows. -/
def get_projectversion_deps (s : Store) (pvid : Nat) : List Nat :=
  depsIter s s.projectversions.length (storeAdj s pvid)

theorem mem_foldl_addNew (x : Nat) :
    ∀ (l acc : List Nat), x ∈ acc → x ∈ l.foldl addNew acc := by
  intro l
  induction l with
  | nil => exact fun acc h => h
  | cons y ys ih =>
    intro acc h
    apply ih
    unfold addNew
    split
    · exact h
    · exact List.mem_append_left _ h

theorem mem_foldl_level (s : Store) (x : Nat) :
    ∀ (l acc : List Nat), x ∈ acc →
      x ∈ l.foldl (fun a i => (storeAdj s i).foldl addNew a) acc := by
  intro l
  induction l with
  | nil => exact fun acc h => h
  | cons y ys ih => exact fun acc h => ih _ (mem_foldl_addNew x _ _ h)

theorem mem_depsIter (s : Store) {x : Nat} :
    ∀ (n : Nat) {cur : List Nat}, x ∈ cur → x ∈ depsIter s n cur := by
  intro n
  induction n with
  | zero => exact fun h => h
  | succ m ih => exact fun h => ih (mem_foldl_level s x _ _ h)

/-- A direct dependency is among the transitive dependency ids. -/
theorem direct_dep_mem_deps (s : Store) (pvid d : Nat) (h : d ∈ storeAdj s pvid) :
    d ∈ get_projectversion_deps s pvid := mem_depsIter s _ h

/-! ## The lifecycle handlers of api/projectversion.py -/

/-- `dep.is_locked` for a dependency id.  In the ORM every id appearing in a
dependency list resolves to a row, so for well-formed stores the `none`
branch is unreachable; it yields `true` so the `all` test below matches the
loop over resolved objects in the source. -/
def depLocked (s : Store) (i : Nat) : Bool :=
  match findPV s i with
  | some p => p.isLocked
  | none => true

/-- `post_projectversion_dependency` (api/projectversion.py, lines 977–1017)
after transport-level parsing.  Return sites in source order: `notFound`
for a missing projectversion ("Invalid data received."), `lockedResource`
("You can not add dependencies on a locked projectversion!"),
`invalidInput` for a self dependency, `cycleDetected` ("... a
projectversion depending itself on this projectversion!"), `notFound` for a
missing dependency; otherwise the edge is appended and committed. -/
def addDependency (s : Store) (pvid depid : Nat) : Except ApiError Store :=
  match findPV s pvid with
  | none => .error .notFound
  | some pv =>
    if pv.isLocked then .error .lockedResource
    else if depid = pvid then .error .invalidInput
    else if pvid ∈ get_projectversion_deps s depid then .error .cycleDetected
    else match findPV s depid with
      | none => .error .notFound
      | some _ =>
        .ok (updatePV s pvid (fun p => { p with dependencies := p.dependencies ++ [depid] }))

/-- `delete_projectversion_dependency` (api/projectversion.py, lines
894–940) after transport-level parsing.  `dependencies.remove(dependency)`
raises `ValueError` when the edge is absent, modelled as `exception`. -/
def removeDependency (s : Store) (pvid depid : Nat) : Except ApiError Store :=
  match findPV s pvid with
  | none => .error .notFound
  | some pv =>
    if pv.isLocked then .error .lockedResource
    else match findPV s depid with
      | none => .error .notFound
      | some _ =>
        if depid ∈ pv.dependencies then
          .ok (updatePV s pvid (fun p => { p with dependencies := p.dependencies.erase depid }))
        else .error .exception

/-- `post_projectversion_lock` (api/projectversion.py, lines 724–755) after
transport-level parsing.  The dependency walk is the fuelled
`get_projectversion_deps_manually`; `none` means the walk did not return
within the budget.  An unlocked dependency yields the conflict
"Dependencies of given projectversion must be locked". -/
def lockPV (fuel : Nat) (s : Store) (pvid : Nat) : Option (Except ApiError Store) :=
  match findPV s pvid with
  | none => some (.error .notFound)
  | some _ =>
    match get_projectversion_deps_manually (storeAdj s) pvid fuel with
    | none => none
    | some depIds =>
      if depIds.all (fun i => depLocked s i) then
        some (.ok (updatePV s pvid
          (fun p => { p with isLocked := true, ciBuildsEnabled := false })))
      else some (.error (.conflict []))

/-- The dependents of `pvid` with `is_deleted == false`, formatted
`"project/name"`, in store order (api/projectversion.py, lines 807–811). -/
def blockingDependants (s : Store) (pvid : Nat) : List String :=
  ((s.projectversions.filter (fun q => pvid ∈ q.dependencies)).filter
    (fun d => !d.isDeleted)).map (fun d => projNameOf s d ++ "/" ++ d.name)

/-- `mark_delete_projectversion` (api/projectversion.py, lines 783–858)
after transport-level parsing.  A non-empty blocking list is rejected with
the conflict naming every blocking dependent, before anything is touched;
otherwise two `drop_publish` commands (stable, then unstable) are enqueued
and the flags set.  `none` models the `AttributeError` raised when
`projectversion.basemirror` does not resolve. -/
def markDeleted (s : Store) (pvid : Nat) : Option (Except ApiError Store) :=
  match findPV s pvid with
  | none => some (.error .notFound)
  | some pv =>
    if blockingDependants s pvid ≠ [] then
      some (.error (.conflict (blockingDependants s pvid)))
    else
      match pv.basemirrorId.bind (findPV s) with
      | none => none
      | some bm =>
        some (.ok { updatePV s pvid
            (fun p => { p with isDeleted := true, isLocked := true, ciBuildsEnabled := false })
          with queue := s.queue ++
            [.drop_publish (projNameOf s bm) bm.name (projNameOf s pv) pv.name "stable",
             .drop_publish (projNameOf s bm) bm.name (projNameOf s pv) pv.name "unstable"] })

/-- Primary key assigned to an inserted row. -/
def freshId (s : Store) : Nat := (s.projectversions.map PV.id).foldr max 0 + 1

def findProjectByName (s : Store) (name : String) : Option Project :=
  s.projects.find? (fun p => p.name = name)

/-- `create_projectversions` (api/projectversion.py, lines 274–335) after
transport-level parsing and name validation, with `basemirror` already
split at the slash into `bmName`/`bmVersion`.  The duplicate check at lines
303–304 filters `ProjectVersion.name == name` and `Project.id == project.id`
WITHOUT joining `Project` to `ProjectVersion` (contrast the clone handler at
line 502): over the resulting cross join the `Project.id` condition is
discharged by the project row just looked up, so the check degenerates to
"some projectversion row anywhere has this name" — no restriction to the
project, no exclusion of soft-deleted rows.  The basemirror lookup at lines
309–310 matches only the owning project's name and the version name; it
tests neither `is_deleted` nor any base-mirror flag.  On success the new row
is inserted (remaining fields are the ORM model's defaults, immaterial
below), exactly one `init_repository` command is enqueued, and (store, new
id) is returned. -/
def createdStore (s : Store) (projectName pvName bmName bmVersion : String)
    (architectures : List String) (projectId bmId : Nat) : Store :=
  { s with
    projectversions := s.projectversions ++
      [{ id := freshId s, name := pvName, projectId := projectId,
         basemirrorId := some bmId, isLocked := false, isDeleted := false,
         ciBuildsEnabled := false, dependencies := [] }],
    queue := s.queue ++
      [.init_repository (freshId s) bmName bmVersion projectName pvName architectures] }

/-- The basemirror lookup predicate of lines 309–310: owning project name
and version name only. -/
def bmMatch (s : Store) (bmName bmVersion : String) (p : PV) : Bool :=
  projNameOf s p = bmName ∧ p.name = bmVersion

/-- The body of `create_projectversions` after the project lookup; see the
doc comment on `createdStore` for the success shape. -/
def create_projectversions (s : Store) (projectName pvName bmName bmVersion : String)
    (architectures : List String) : Except ApiError (Store × Nat) :=
  match findProjectByName s projectName with
  | none => .error .notFound
  | some project =>
    if s.projectversions.any (fun p => p.name = pvName) then .error (.conflict [])
    else
      match s.projectversions.find? (bmMatch s bmName bmVersion) with
      | none => .error .notFound
      | some bm =>
        .ok (createdStore s projectName pvName bmName bmVersion architectures project.id bm.id,
          freshId s)

/-! ## Store lemmas -/

theorem find_map_id_preserving (g : PV → PV) (hg : ∀ p, (g p).id = p.id) (j : Nat) :
    ∀ l : List PV,
      (l.map g).find? (fun p => p.id = j) = (l.find? (fun p => p.id = j)).map g := by
  intro l
  induction l with
  | nil => rfl
  | cons p ps ih =>
    by_cases hp : p.id = j
    · rw [List.map_cons, List.find?_cons_of_pos _ (by simp [hg, hp]),
        List.find?_cons_of_pos _ (by simp [hp])]
      rfl
    · rw [List.map_cons, List.find?_cons_of_neg _ (by simp [hg, hp]),
        List.find?_cons_of_neg _ (by simp [hp])]
      exact ih

theorem findPV_updatePV (s : Store) (i j : Nat) (f : PV → PV)
    (hf : ∀ p, (f p).id = p.id) :
    findPV (updatePV s i f) j =
      (findPV s j).map (fun p => if p.id = i then f p else p) := by
  unfold findPV updatePV
  exact find_map_id_preserving _ (fun p => by by_cases h : p.id = i <;> simp [h, hf]) j _

/-- A found row satisfies the lookup key. -/
theorem findPV_id (s : Store) (i : Nat) (pv : PV) (h : findPV s i = some pv) :
    pv.id = i := by
  have := List.find?_some h
  simpa using this

instance {e a : Type} [DecidableEq e] [DecidableEq a] : DecidableEq (Except e a)
  | .error x, .error y =>
    if h : x = y then .isTrue (congrArg Except.error h)
    else .isFalse (fun he => h (Except.error.inj he))
  | .error _, .ok _ => .isFalse (fun he => Except.noConfusion he)
  | .ok _, .error _ => .isFalse (fun he => Except.noConfusion he)
  | .ok x, .ok y =>
    if h : x = y then .isTrue (congrArg Except.ok h)
    else .isFalse (fun he => h (Except.ok.inj he))

/-- C1 (amended): with both rows present, `addDependency(pv, dep)` fails
with `LockedResource` if `pv.is_locked`, else with `InvalidInput` if
`dep.id == pv.id`, else with `CycleDetected` if `pv.id` is among the
transitive dependency ids of `dep`, and otherwise appends the edge; and
after an accepted `addDependency(A, B)`, the reverse `addDependency(B, A)`
fails with `CycleDetected` *provided B is not locked* (a locked B fails
with `LockedResource` instead, since the lock check precedes the cycle
check — see the counterexample). -/
theorem C1_addDependency (s : Store) (pvid depid : Nat) (pv dep : PV)
    (hpv : findPV s pvid = some pv) (hdep : findPV s depid = some dep) :
    (pv.isLocked = true → addDependency s pvid depid = .error .lockedResource) ∧
    (pv.isLocked = false → depid = pvid →
      addDependency s pvid depid = .error .invalidInput) ∧
    (pv.isLocked = false → depid ≠ pvid → pvid ∈ get_projectversion_deps s depid →
      addDependency s pvid depid = .error .cycleDetected) ∧
    (pv.isLocked = false → depid ≠ pvid → pvid ∉ get_projectversion_deps s depid →
      addDependency s pvid depid = .ok (updatePV s pvid
        (fun p => { p with dependencies := p.dependencies ++ [depid] }))) ∧
    (∀ s2, addDependency s pvid depid = .ok s2 → dep.isLocked = false →
      addDependency s2 depid pvid = .error .cycleDetected) := by
  have hpvid : pv.id = pvid := findPV_id s pvid pv hpv
  have hdepid : dep.id = depid := findPV_id s depid dep hdep
  refine ⟨?_, ?_, ?_, ?_, ?_⟩
  · intro hl
    unfold addDependency
    rw [hpv]
    simp [hl]
  · intro hl he
    unfold addDependency
    rw [hpv]
    simp [hl, he]
  · intro hl hne hmem
    unfold addDependency
    rw [hpv]
    simp [hl, hne, hmem]
  · intro hl hne hmem
    unfold addDependency
    rw [hpv]
    simp [hl, hne, hmem, hdep]
  · intro s2 hok hdl
    unfold addDependency at hok
    rw [hpv] at hok
    by_cases hl : pv.isLocked
    · simp [hl] at hok
    by_cases he : depid = pvid
    · simp [hl, he] at hok
    by_cases hmem : pvid ∈ get_projectversion_deps s depid
    · simp [hl, he, hmem] at hok
    simp [hl, he, hmem, hdep] at hok
    subst hok
    have hfind : findPV (updatePV s pvid
        (fun p => { p with dependencies := p.dependencies ++ [depid] })) depid = some dep := by
      rw [findPV_updatePV s pvid depid
        (fun p => { p with dependencies := p.dependencies ++ [depid] }) (fun p => rfl), hdep]
      simp [hdepid, he]
    have hadj : depid ∈ storeAdj (updatePV s pvid
        (fun p => { p with dependencies := p.dependencies ++ [depid] })) pvid := by
      unfold storeAdj
      rw [findPV_updatePV s pvid pvid
        (fun p => { p with dependencies := p.dependencies ++ [depid] }) (fun p => rfl), hpv]
      simp [hpvid]
    have hcyc := direct_dep_mem_deps _ pvid depid hadj
    unfold addDependency
    rw [hfind]
    simp [hdl, Ne.symm he, hcyc]

/-- Store for the C1 counterexample: two rows, no dependency edges, the
second row locked. -/
def c1Store : Store :=
  { projects := [{ id := 1, name := "P" }],
    projectversions :=
      [{ id := 1, name := "a", projectId := 1, basemirrorId := none, isLocked := false,
         isDeleted := false, ciBuildsEnabled := true, dependencies := [] },
       { id := 2, name := "b", projectId := 1, basemirrorId := none, isLocked := true,
         isDeleted := false, ciBuildsEnabled := true, dependencies := [] }],
    queue := [] }

/-- C1 counterexample: the store is acyclic (it has no edges at all) and
`addDependency(A, B)` is accepted, yet the subsequent `addDependency(B, A)`
fails with `LockedResource`, not `CycleDetected`, because B is locked and
the lock check runs first. -/
theorem C1_counterexample :
    (∀ p ∈ c1Store.projectversions, p.dependencies = []) ∧
    (∃ s2, addDependency c1Store 1 2 = .ok s2 ∧
      addDependency s2 2 1 = .error .lockedResource ∧
      addDependency s2 2 1 ≠ .error .cycleDetected) := by
  refine ⟨by decide, ⟨updatePV c1Store 1
    (fun p => { p with dependencies := p.dependencies ++ [2] }), ?_, ?_, ?_⟩⟩ <;> decide

/-- Store for the C1 witness: two rows, no edges, both unlocked. -/
def c1wStore : Store :=
  { projects := [{ id := 1, name := "P" }],
    projectversions :=
      [{ id := 1, name := "a", projectId := 1, basemirrorId := none, isLocked := false,
         isDeleted := false, ciBuildsEnabled := true, dependencies := [] },
       { id := 2, name := "b", projectId := 1, basemirrorId := none, isLocked := false,
         isDeleted := false, ciBuildsEnabled := true, dependencies := [] }],
    queue := [] }

/-- C1 witness: with B unlocked, `addDependency(A, B)` is accepted and the
reverse edge is then rejected with `CycleDetected`. -/
theorem C1_witness :
    ∃ s2, addDependency c1wStore 1 2 = .ok s2 ∧
      addDependency s2 2 1 = .error .cycleDetected := by
  obtain ⟨-, -, -, h4, h5⟩ := C1_addDependency c1wStore 1 2
    { id := 1, name := "a", projectId := 1, basemirrorId := none, isLocked := false,
      isDeleted := false, ciBuildsEnabled := true, dependencies := [] }
    { id := 2, name := "b", projectId := 1, basemirrorId := none, isLocked := false,
      isDeleted := false, ciBuildsEnabled := true, dependencies := [] }
    (by decide) (by decide)
  have hok := h4 rfl (by decide) (by decide)
  exact ⟨_, hok, h5 _ hok rfl⟩

/-- C2: with the projectversion present and the dependency walk returning
`depIds`, `lock` succeeds exactly when every returned dependency id refers
to a locked row (`depLocked`), setting `is_locked := true` and
`ci_builds_enabled := false`; otherwise it fails with `Conflict`.  After a
successful lock both `addDependency` and `removeDependency` on the locked
version fail with `LockedResource` for every dependency id. -/
theorem C2_lock (fuel : Nat) (s : Store) (pvid : Nat) (pv : PV) (depIds : List Nat)
    (hpv : findPV s pvid = some pv)
    (hwalk : get_projectversion_deps_manually (storeAdj s) pvid fuel = some depIds) :
    (depIds.all (depLocked s) = true →
      lockPV fuel s pvid = some (.ok (updatePV s pvid
        (fun p => { p with isLocked := true, ciBuildsEnabled := false }))) ∧
      (∀ x, addDependency (updatePV s pvid
        (fun p => { p with isLocked := true, ciBuildsEnabled := false })) pvid x =
          .error .lockedResource) ∧
      (∀ x, removeDependency (updatePV s pvid
        (fun p => { p with isLocked := true, ciBuildsEnabled := false })) pvid x =
          .error .lockedResource)) ∧
    (depIds.all (depLocked s) = false →
      lockPV fuel s pvid = some (.error (.conflict []))) ∧
    ((∃ s2, lockPV fuel s pvid = some (.ok s2)) ↔ depIds.all (depLocked s) = true) := by
  have hpvid : pv.id = pvid := findPV_id s pvid pv hpv
  have hfind : findPV (updatePV s pvid
      (fun p => { p with isLocked := true, ciBuildsEnabled := false })) pvid =
        some { pv with isLocked := true, ciBuildsEnabled := false } := by
    rw [findPV_updatePV s pvid pvid
      (fun p => { p with isLocked := true, ciBuildsEnabled := false }) (fun p => rfl), hpv]
    simp [hpvid]
  refine ⟨fun hall => ⟨?_, fun x => ?_, fun x => ?_⟩, fun hnall => ?_, ?_⟩
  · unfold lockPV
    rw [hpv, hwalk]
    simp [hall]
  · unfold addDependency
    rw [hfind]
    simp
  · unfold removeDependency
    rw [hfind]
    simp
  · unfold lockPV
    rw [hpv, hwalk]
    simp [hnall]
  · constructor
    · rintro ⟨s2, h2⟩
      by_contra hnall
      rw [Bool.not_eq_true] at hnall
      unfold lockPV at h2
      rw [hpv, hwalk] at h2
      simp [hnall] at h2
    · intro hall
      refine ⟨updatePV s pvid (fun p => { p with isLocked := true, ciBuildsEnabled := false }), ?_⟩
      unfold lockPV
      rw [hpv, hwalk]
      simp [hall]

/-- C2 witness: a one-edge store whose dependency is locked; the lock
succeeds and subsequent dependency mutations are rejected. -/
def c2Store : Store :=
  { projects := [{ id := 1, name := "P" }],
    projectversions :=
      [{ id := 1, name := "a", projectId := 1, basemirrorId := none, isLocked := false,
         isDeleted := false, ciBuildsEnabled := true, dependencies := [2] },
       { id := 2, name := "b", projectId := 1, basemirrorId := none, isLocked := true,
         isDeleted := false, ciBuildsEnabled := false, dependencies := [] }],
    queue := [] }

theorem C2_witness :
    ([2].all (depLocked c2Store) = true →
      lockPV 6 c2Store 1 = some (.ok (updatePV c2Store 1
        (fun p => { p with isLocked := true, ciBuildsEnabled := false }))) ∧
      (∀ x, addDependency (updatePV c2Store 1
        (fun p => { p with isLocked := true, ciBuildsEnabled := false })) 1 x =
          .error .lockedResource) ∧
      (∀ x, removeDependency (updatePV c2Store 1
        (fun p => { p with isLocked := true, ciBuildsEnabled := false })) 1 x =
          .error .lockedResource)) ∧
    ([2].all (depLocked c2Store) = false →
      lockPV 6 c2Store 1 = some (.error (.conflict []))) ∧
    ((∃ s2, lockPV 6 c2Store 1 = some (.ok s2)) ↔ [2].all (depLocked c2Store) = true) :=
  C2_lock 6 c2Store 1
    { id := 1, name := "a", projectId := 1, basemirrorId := none, isLocked := false,
      isDeleted := false, ciBuildsEnabled := true, dependencies := [2] }
    [2] (by decide) (by decide)

/-- C3: with the projectversion present, a non-empty list of non-deleted
dependents (each formatted `"project/name"`) is rejected with a `Conflict`
naming all of them and nothing is changed or enqueued; with no such
dependent (and the base mirror resolving, as it always does in the ORM) the
handler enqueues exactly the two `drop_publish` commands — stable then
unstable, each carrying the base mirror's project and version names and the
version's own project and name — and sets `is_deleted`, `is_locked` and
clears `ci_builds_enabled`. -/
theorem C3_markDeleted (s : Store) (pvid : Nat) (pv : PV)
    (hpv : findPV s pvid = some pv) :
    (blockingDependants s pvid ≠ [] →
      markDeleted s pvid = some (.error (.conflict (blockingDependants s pvid)))) ∧
    (blockingDependants s pvid = [] →
      ∀ bmid bm, pv.basemirrorId = some bmid → findPV s bmid = some bm →
        markDeleted s pvid = some (.ok { updatePV s pvid
            (fun p => { p with isDeleted := true, isLocked := true, ciBuildsEnabled := false })
          with queue := s.queue ++
            [.drop_publish (projNameOf s bm) bm.name (projNameOf s pv) pv.name "stable",
             .drop_publish (projNameOf s bm) bm.name (projNameOf s pv) pv.name "unstable"] })) := by
  constructor
  · intro hne
    unfold markDeleted
    rw [hpv]
    simp [hne]
  · intro hemp bmid bm hbmid hbm
    unfold markDeleted
    rw [hpv]
    simp [hemp, hbmid, hbm]

/-- The row targeted by the C3 witness. -/
def c3Target : PV :=
  { id := 1, name := "1.0", projectId := 1, basemirrorId := some 9, isLocked := false,
    isDeleted := false, ciBuildsEnabled := true, dependencies := [] }

/-- Store for the C3 witness: `P/1.1` (non-deleted) depends on `P/1.0`,
blocking its deletion. -/
def c3Store : Store :=
  { projects := [{ id := 1, name := "P" }, { id := 2, name := "stretch" }],
    projectversions :=
      [c3Target,
       { id := 2, name := "1.1", projectId := 1, basemirrorId := some 9, isLocked := false,
         isDeleted := false, ciBuildsEnabled := true, dependencies := [1] },
       { id := 9, name := "9.6", projectId := 2, basemirrorId := none, isLocked := true,
         isDeleted := false, ciBuildsEnabled := false, dependencies := [] }],
    queue := [] }

theorem C3_witness :
    (blockingDependants c3Store 1 ≠ [] →
      markDeleted c3Store 1 = some (.error (.conflict (blockingDependants c3Store 1)))) ∧
    (blockingDependants c3Store 1 = [] →
      ∀ bmid bm, c3Target.basemirrorId = some bmid → findPV c3Store bmid = some bm →
        markDeleted c3Store 1 = some (.ok { updatePV c3Store 1
            (fun p => { p with isDeleted := true, isLocked := true, ciBuildsEnabled := false })
          with queue := c3Store.queue ++
            [.drop_publish (projNameOf c3Store bm) bm.name
              (projNameOf c3Store c3Target) c3Target.name "stable",
             .drop_publish (projNameOf c3Store bm) bm.name
              (projNameOf c3Store c3Target) c3Target.name "unstable"] })) :=
  C3_markDeleted c3Store 1 c3Target (by decide)

/-- C6 (amended): with the project resolving, `create` fails with `Conflict`
as soon as ANY projectversion row — in any project, deleted or not — bears
the requested name (the duplicate query's missing join makes the uniqueness
check global and insensitive to `is_deleted`); otherwise, when the
basemirror reference resolves, it succeeds with the fresh id, appends the
new row, and enqueues exactly one `init_repository` command carrying the
given architectures; re-running the same `create` on the resulting store
then fails with `Conflict`. -/
theorem C6_create (s : Store) (projectName pvName bmName bmVersion : String)
    (archs : List String) (project : Project)
    (hproj : findProjectByName s projectName = some project) :
    (s.projectversions.any (fun p => p.name = pvName) = true →
      create_projectversions s projectName pvName bmName bmVersion archs =
        .error (.conflict [])) ∧
    (s.projectversions.any (fun p => p.name = pvName) = false →
      ∀ bm, s.projectversions.find? (bmMatch s bmName bmVersion) = some bm →
        create_projectversions s projectName pvName bmName bmVersion archs =
          .ok (createdStore s projectName pvName bmName bmVersion archs project.id bm.id,
            freshId s) ∧
        (createdStore s projectName pvName bmName bmVersion archs project.id bm.id).queue =
          s.queue ++ [.init_repository (freshId s) bmName bmVersion projectName pvName archs] ∧
        create_projectversions
            (createdStore s projectName pvName bmName bmVersion archs project.id bm.id)
            projectName pvName bmName bmVersion archs =
          .error (.conflict [])) := by
  constructor
  · intro hdup
    unfold create_projectversions
    rw [hproj]
    simp [hdup]
  · intro hdup bm hbm
    refine ⟨?_, rfl, ?_⟩
    · unfold create_projectversions
      rw [hproj]
      simp [hdup, hbm]
    · unfold create_projectversions
      have hproj2 : findProjectByName
          (createdStore s projectName pvName bmName bmVersion archs project.id bm.id)
          projectName = some project := hproj
      rw [hproj2]
      have hany : (createdStore s projectName pvName bmName bmVersion archs
          project.id bm.id).projectversions.any (fun p => p.name = pvName) = true := by
        simp [createdStore]
      simp [hany]

/-- Store for the C6 counterexample: the only row named `1.0.0` is
non-deleted but belongs to project `Q`, not to `P`; `stretch/9.6`
resolves. -/
def c6Store : Store :=
  { projects := [{ id := 1, name := "P" }, { id := 2, name := "Q" },
      { id := 3, name := "stretch" }],
    projectversions :=
      [{ id := 10, name := "1.0.0", projectId := 2, basemirrorId := none, isLocked := false,
         isDeleted := false, ciBuildsEnabled := false, dependencies := [] },
       { id := 11, name := "9.6", projectId := 3, basemirrorId := none, isLocked := true,
         isDeleted := false, ciBuildsEnabled := false, dependencies := [] }],
    queue := [] }

/-- C6 counterexample: no projectversion named `1.0.0` exists within project
`P` (id 1), and the basemirror resolves, yet `create` fails with `Conflict`:
the duplicate check is not scoped to the project. -/
theorem C6_counterexample :
    (∀ p ∈ c6Store.projectversions, ¬(p.projectId = 1 ∧ p.name = "1.0.0")) ∧
    findProjectByName c6Store "P" = some { id := 1, name := "P" } ∧
    create_projectversions c6Store "P" "1.0.0" "stretch" "9.6" ["amd64"] =
      .error (.conflict []) := by
  refine ⟨?_, ?_, ?_⟩ <;> decide

/-- Store for the C6 witness: project `P`, a basemirror row `stretch/9.6`,
and no row named `1.0.0`. -/
def c6wStore : Store :=
  { projects := [{ id := 1, name := "P" }, { id := 3, name := "stretch" }],
    projectversions :=
      [{ id := 11, name := "9.6", projectId := 3, basemirrorId := none, isLocked := true,
         isDeleted := false, ciBuildsEnabled := false, dependencies := [] }],
    queue := [] }

theorem C6_witness :
    (c6wStore.projectversions.any (fun p => p.name = "1.0.0") = true →
      create_projectversions c6wStore "P" "1.0.0" "stretch" "9.6" ["amd64"] =
        .error (.conflict [])) ∧
    (c6wStore.projectversions.any (fun p => p.name = "1.0.0") = false →
      ∀ bm, c6wStore.projectversions.find? (bmMatch c6wStore "stretch" "9.6") = some bm →
        create_projectversions c6wStore "P" "1.0.0" "stretch" "9.6" ["amd64"] =
          .ok (createdStore c6wStore "P" "1.0.0" "stretch" "9.6" ["amd64"] 1 bm.id,
            freshId c6wStore) ∧
        (createdStore c6wStore "P" "1.0.0" "stretch" "9.6" ["amd64"] 1 bm.id).queue =
          c6wStore.queue ++
            [.init_repository (freshId c6wStore) "stretch" "9.6" "P" "1.0.0" ["amd64"]] ∧
        create_projectversions
            (createdStore c6wStore "P" "1.0.0" "stretch" "9.6" ["amd64"] 1 bm.id)
            "P" "1.0.0" "stretch" "9.6" ["amd64"] =
          .error (.conflict [])) :=
  C6_create c6wStore "P" "1.0.0" "stretch" "9.6" ["amd64"] { id := 1, name := "P" } (by decide)

/-- C7 (amended): the basemirror reference `bmName/bmVersion` resolves
through a lookup matching ONLY the owning project's name and the version's
name — it inspects neither `is_deleted` nor any base-mirror flag — and
`create` fails with `NotFound` exactly when no row matches at all; a
reference matched only by a deleted row still resolves (see the
counterexample). -/
theorem C7_basemirror_resolution (s : Store) (projectName pvName bmName bmVersion : String)
    (archs : List String) (project : Project)
    (hproj : findProjectByName s projectName = some project)
    (hdup : s.projectversions.any (fun p => p.name = pvName) = false) :
    (s.projectversions.find? (bmMatch s bmName bmVersion) = none →
      create_projectversions s projectName pvName bmName bmVersion archs =
        .error .notFound) ∧
    (∀ bm, s.projectversions.find? (bmMatch s bmName bmVersion) = some bm →
      create_projectversions s projectName pvName bmName bmVersion archs =
        .ok (createdStore s projectName pvName bmName bmVersion archs project.id bm.id,
          freshId s)) := by
  constructor
  · intro hnone
    unfold create_projectversions
    rw [hproj]
    simp [hdup, hnone]
  · intro bm hbm
    unfold create_projectversions
    rw [hproj]
    simp [hdup, hbm]

/-- Store for the C7 counterexample: the only row matching `stretch/9.6` is
soft-deleted. -/
def c7Store : Store :=
  { projects := [{ id := 1, name := "P" }, { id := 3, name := "stretch" }],
    projectversions :=
      [{ id := 11, name := "9.6", projectId := 3, basemirrorId := none, isLocked := true,
         isDeleted := true, ciBuildsEnabled := false, dependencies := [] }],
    queue := [] }

/-- C7 counterexample: every row matching `stretch/9.6` is deleted, so per
the claim `create` must fail with `NotFound`; instead it succeeds — the
resolution query never inspects `is_deleted` (nor any base-mirror flag). -/
theorem C7_counterexample :
    (∀ p ∈ c7Store.projectversions,
      (projNameOf c7Store p = "stretch" ∧ p.name = "9.6") → p.isDeleted = true) ∧
    create_projectversions c7Store "P" "1.0.0" "stretch" "9.6" ["amd64"] =
      .ok (createdStore c7Store "P" "1.0.0" "stretch" "9.6" ["amd64"] 1 11,
        freshId c7Store) := by
  constructor <;> decide

/-- Store for the C7 witness: identical to the C6 witness store. -/
def c7wStore : Store :=
  { projects := [{ id := 1, name := "P" }, { id := 3, name := "stretch" }],
    projectversions :=
      [{ id := 11, name := "9.6", projectId := 3, basemirrorId := none, isLocked := true,
         isDeleted := false, ciBuildsEnabled := false, dependencies := [] }],
    queue := [] }

theorem C7_witness :
    (c7wStore.projectversions.find? (bmMatch c7wStore "stretch" "9.6") = none →
      create_projectversions c7wStore "P" "1.0.0" "stretch" "9.6" ["amd64"] =
        .error .notFound) ∧
    (∀ bm, c7wStore.projectversions.find? (bmMatch c7wStore "stretch" "9.6") = some bm →
      create_projectversions c7wStore "P" "1.0.0" "stretch" "9.6" ["amd64"] =
        .ok (createdStore c7wStore "P" "1.0.0" "stretch" "9.6" ["amd64"] 1 bm.id,
          freshId c7wStore)) :=
  C7_basemirror_resolution c7wStore "P" "1.0.0" "stretch" "9.6" ["amd64"]
    { id := 1, name := "P" } (by decide) (by decide)

/-! ## The backend worker (molior/worker_backend.py)

`startup_scheduling` and `_failed` read and mutate the `build` and
`buildtask` tables and emit two observable side effects: `write_log` lines
and `send_mail_notification` dispatches.  Both are carried in the worker
state so the theorems can count them. -/

/-- A row of the `build` table (the fields the worker reads).  `topicId`
stands for `build.parent.parent.id`, the log-routing target. -/
structure Build where
  id : Nat
  buildstate : String
  buildtype : String
  is_ci : Bool
  topicId : Nat
deriving DecidableEq, Repr

/-- A row of the `buildtask` table: the in-flight marker for a build. -/
structure BuildTask where
  id : Nat
  buildId : Nat
deriving DecidableEq, Repr

/-- Worker-visible state: the two tables plus the observable side effects —
`write_log` lines (topic, text) and the mail notifications dispatched
(build ids), both appended in order. -/
structure WState where
  builds : List Build
  tasks : List BuildTask
  logs : List (Nat × String)
  mails : List Nat
deriving DecidableEq, Repr

/-- Modelled from the spec: `Build.set_needs_build`, `set_failed` and
`set_building` live in `molior/model/build.py`, which is not in src/; per
spec §4.3 they transition the build to the named state. -/
def setState (st : String) (b : Build) : Build := { b with buildstate := st }

/-- `session.query(Build).filter(Build.id == i).first()` -/
def findBuild (bs : List Build) (i : Nat) : Option Build :=
  bs.find? (fun b => b.id = i)

/-- In-place state mutation of the build row with id `i`. -/
def updateBuildState (bs : List Build) (i : Nat) (st : String) : List Build :=
  bs.map (fun b => if b.id = i then setState st b else b)

/-- `session.query(BuildTask).filter(BuildTask.build == build).first()`
followed by `session.delete(buildtask)`: removes the first matching task.
`none` when no task matches — `session.delete(None)` raises
`UnmappedInstanceError`. -/
def deleteFirstTask : List BuildTask → Nat → Option (List BuildTask)
  | [], _ => none
  | t :: ts, bid =>
    if t.buildId = bid then some ts
    else (deleteFirstTask ts bid).map (fun ts2 => t :: ts2)

/-- One recovery batch of `startup_scheduling`: for each listed build,
delete its BuildTask and transition it to `st`.  `none` propagates the
`session.delete(None)` exception, in which case nothing of the batch is
committed. -/
def processRecovery (st : String) : WState → List Build → Option WState
  | w, [] => some w
  | w, b :: bs =>
    match deleteFirstTask w.tasks b.id with
    | none => none
    | some ts =>
      processRecovery st
        { w with tasks := ts, builds := updateBuildState w.builds b.id st } bs

/-- `query(Build).filter(Build.buildstate == st, Build.buildtype == "deb").all()` -/
def debBuildsIn (w : WState) (st : String) : List Build :=
  w.builds.filter (fun b => b.buildstate = st ∧ b.buildtype = "deb")

/-- `BackendWorker.startup_scheduling` (worker_backend.py, lines 25–42):
every `scheduled` deb build has its BuildTask deleted and is reset to
`needs_build`, the batch is committed; then every `building` deb build
(queried against the committed state) has its BuildTask deleted and is
transitioned to `failed`, and that batch is committed. -/
def startup_scheduling (w : WState) : Option WState :=
  match processRecovery "needs_build" w (debBuildsIn w "scheduled") with
  | none => none
  | some w1 => processRecovery "failed" w1 (debBuildsIn w1 "building")

/-- Outcome of a handler: `ok` on normal return, `raised` when a Python
exception escapes; both carry the state as committed at that point. -/
inductive HandlerResult where
  | ok (w : WState)
  | raised (w : WState)
deriving DecidableEq, Repr

/-- `BackendWorker._failed` (worker_backend.py, lines 61–81).  A missing
build logs to the service log (outside the modelled state) and returns with
nothing changed.  Otherwise an error line is written to the build's log
topic, the build is set to `failed` and committed; then the BuildTask is
looked up and deleted (`session.delete(None)` raising when absent, AFTER
the failed state was committed) and committed; finally
`send_mail_notification(build)` is dispatched unless `build.is_ci`.
`failedCommitted` is the state committed before the BuildTask lookup: the
error log line written and the build set to `failed`. -/
def failedCommitted (w : WState) (build : Build) (build_id : Nat) : WState :=
  { w with
    logs := w.logs ++ [(build.topicId, "E: build " ++ toString build_id ++ " failed\n")],
    builds := updateBuildState w.builds build_id "failed" }

def build_failed (w : WState) (build_id : Nat) : HandlerResult :=
  match findBuild w.builds build_id with
  | none => .ok w
  | some build =>
    match deleteFirstTask (failedCommitted w build build_id).tasks build_id with
    | none => .raised (failedCommitted w build build_id)
    | some ts =>
      if build.is_ci then .ok { failedCommitted w build build_id with tasks := ts }
      else .ok { failedCommitted w build build_id with
        tasks := ts,
        mails := (failedCommitted w build build_id).mails ++ [build_id] }

/-! ## Worker lemmas -/

theorem deleteFirstTask_eq_none (bid : Nat) :
    ∀ ts : List BuildTask,
      deleteFirstTask ts bid = none ↔ ∀ t ∈ ts, t.buildId ≠ bid := by
  intro ts
  induction ts with
  | nil => simp [deleteFirstTask]
  | cons t ts ih =>
    by_cases h : t.buildId = bid
    · simp [deleteFirstTask, h]
    · simp [deleteFirstTask, h, ih]

theorem deleteFirstTask_sublist (bid : Nat) :
    ∀ (ts ts2 : List BuildTask), deleteFirstTask ts bid = some ts2 → List.Sublist ts2 ts := by
  intro ts
  induction ts with
  | nil => intro ts2 h; simp [deleteFirstTask] at h
  | cons t ts ih =>
    intro ts2 h
    by_cases hb : t.buildId = bid
    · simp [deleteFirstTask, hb] at h
      exact h ▸ List.sublist_cons_self t ts
    · simp [deleteFirstTask, hb] at h
      obtain ⟨ts3, h3, rfl⟩ := h
      exact (ih ts3 h3).cons₂ t

/-- Tasks of other builds survive the deletion. -/
theorem deleteFirstTask_mem (bid : Nat) :
    ∀ (ts ts2 : List BuildTask), deleteFirstTask ts bid = some ts2 →
      ∀ t ∈ ts, t.buildId ≠ bid → t ∈ ts2 := by
  intro ts
  induction ts with
  | nil => intro ts2 h; simp [deleteFirstTask] at h
  | cons t ts ih =>
    intro ts2 h u hu hne
    by_cases hb : t.buildId = bid
    · simp [deleteFirstTask, hb] at h
      subst h
      rcases List.mem_cons.mp hu with rfl | hu2
      · exact absurd hb hne
      · exact hu2
    · simp [deleteFirstTask, hb] at h
      obtain ⟨ts3, h3, rfl⟩ := h
      rcases List.mem_cons.mp hu with rfl | hu2
      · exact List.mem_cons_self u ts3
      · exact List.mem_cons_of_mem t (ih ts3 h3 u hu2 hne)

/-- With at most one task per build, no task for `bid` remains. -/
theorem deleteFirstTask_removed (bid : Nat) :
    ∀ (ts ts2 : List BuildTask), (ts.map BuildTask.buildId).Nodup →
      deleteFirstTask ts bid = some ts2 → ∀ t ∈ ts2, t.buildId ≠ bid := by
  intro ts
  induction ts with
  | nil => intro ts2 _ h; simp [deleteFirstTask] at h
  | cons t ts ih =>
    intro ts2 hnd h u hu
    rw [List.map_cons, List.nodup_cons] at hnd
    by_cases hb : t.buildId = bid
    · simp [deleteFirstTask, hb] at h
      subst h
      intro hub
      exact hnd.1 (hb ▸ hub ▸ List.mem_map_of_mem BuildTask.buildId hu)
    · simp [deleteFirstTask, hb] at h
      obtain ⟨ts3, h3, rfl⟩ := h
      rcases List.mem_cons.mp hu with rfl | hu2
      · exact hb
      · exact ih ts3 hnd.2 h3 u hu2

theorem find_map_build (g : Build → Build) (hg : ∀ b, (g b).id = b.id) (j : Nat) :
    ∀ l : List Build,
      (l.map g).find? (fun b => b.id = j) = (l.find? (fun b => b.id = j)).map g := by
  intro l
  induction l with
  | nil => rfl
  | cons b bs ih =>
    by_cases hb : b.id = j
    · rw [List.map_cons, List.find?_cons_of_pos _ (by simp [hg, hb]),
        List.find?_cons_of_pos _ (by simp [hb])]
      rfl
    · rw [List.map_cons, List.find?_cons_of_neg _ (by simp [hg, hb]),
        List.find?_cons_of_neg _ (by simp [hb])]
      exact ih

theorem findBuild_id (bs : List Build) (i : Nat) (b : Build)
    (h : findBuild bs i = some b) : b.id = i := by
  have := List.find?_some h
  simpa using this

/-- With distinct ids, a member is found under its own id. -/
theorem findBuild_of_mem (bs : List Build) (hnd : (bs.map Build.id).Nodup) :
    ∀ b ∈ bs, findBuild bs b.id = some b := by
  induction bs with
  | nil => intro b hb; simp at hb
  | cons x xs ih =>
    intro b hb
    rw [List.map_cons, List.nodup_cons] at hnd
    rcases List.mem_cons.mp hb with rfl | hb2
    · unfold findBuild
      rw [List.find?_cons_of_pos _ (by simp)]
    · have hne : x.id ≠ b.id := by
        intro he
        exact hnd.1 (he ▸ List.mem_map_of_mem Build.id hb2)
      unfold findBuild
      rw [List.find?_cons_of_neg _ (by simp [hne])]
      exact ih hnd.2 b hb2

/-- Two members with the same id are equal when ids are distinct. -/
theorem mem_id_unique (bs : List Build) (hnd : (bs.map Build.id).Nodup)
    {a b : Build} (ha : a ∈ bs) (hb : b ∈ bs) (hid : a.id = b.id) : a = b := by
  have h1 := findBuild_of_mem bs hnd a ha
  have h2 := findBuild_of_mem bs hnd b hb
  rw [hid, h2] at h1
  exact (Option.some.inj h1).symm

/-- A completed batch leaves logs and mails untouched and only shrinks the
task table. -/
theorem processRecovery_frame (st : String) :
    ∀ (L : List Build) (w w2 : WState), processRecovery st w L = some w2 →
      List.Sublist w2.tasks w.tasks ∧ w2.logs = w.logs ∧ w2.mails = w.mails := by
  intro L
  induction L with
  | nil =>
    intro w w2 h
    simp [processRecovery] at h
    subst h
    exact ⟨List.Sublist.refl _, rfl, rfl⟩
  | cons b bs ih =>
    intro w w2 h
    simp only [processRecovery] at h
    split at h
    · simp at h
    · next ts heq =>
      obtain ⟨h1, h2, h3⟩ := ih _ _ h
      exact ⟨h1.trans (deleteFirstTask_sublist b.id w.tasks ts heq), h2, h3⟩

/-- A batch raises as soon as some listed build has no task. -/
theorem processRecovery_raises (st : String) :
    ∀ (L : List Build) (w : WState),
      (∃ b ∈ L, ∀ t ∈ w.tasks, t.buildId ≠ b.id) →
      processRecovery st w L = none := by
  intro L
  induction L with
  | nil => intro w h; simp at h
  | cons b bs ih =>
    intro w h
    obtain ⟨b0, hb0, hno⟩ := h
    rcases List.mem_cons.mp hb0 with rfl | hb2
    · simp only [processRecovery]
      rw [(deleteFirstTask_eq_none b0.id w.tasks).mpr hno]
    · simp only [processRecovery]
      cases heq : deleteFirstTask w.tasks b.id with
      | none => rfl
      | some ts =>
        apply ih
        refine ⟨b0, hb2, fun t ht => ?_⟩
        exact hno t ((deleteFirstTask_sublist b.id w.tasks ts heq).subset ht)

/-- A batch completes when every listed build (with pairwise distinct ids)
has a task. -/
theorem processRecovery_completes (st : String) :
    ∀ (L : List Build) (w : WState), (L.map Build.id).Nodup →
      (∀ b ∈ L, ∃ t ∈ w.tasks, t.buildId = b.id) →
      ∃ w2, processRecovery st w L = some w2 := by
  intro L
  induction L with
  | nil => intro w _ _; exact ⟨w, rfl⟩
  | cons b bs ih =>
    intro w hnd htask
    rw [List.map_cons, List.nodup_cons] at hnd
    obtain ⟨t0, ht0, htb⟩ := htask b (List.mem_cons_self b bs)
    cases heq : deleteFirstTask w.tasks b.id with
    | none =>
      exact absurd htb ((deleteFirstTask_eq_none b.id w.tasks).mp heq t0 ht0)
    | some ts =>
      obtain ⟨w2, h2⟩ := ih
        { w with tasks := ts, builds := updateBuildState w.builds b.id st } hnd.2
        (by
          intro b2 hb2
          obtain ⟨t, ht, htid⟩ := htask b2 (List.mem_cons_of_mem b hb2)
          have hne : t.buildId ≠ b.id := by
            rw [htid]
            intro he
            exact hnd.1 (he ▸ List.mem_map_of_mem Build.id hb2)
          exact ⟨t, deleteFirstTask_mem b.id w.tasks ts heq t ht hne, htid⟩)
      refine ⟨w2, ?_⟩
      simp only [processRecovery, heq]
      exact h2

/-- The per-row effect of a completed batch over the listed build ids. -/
def recoverMark (ids : List Nat) (st : String) (b : Build) : Build :=
  if b.id ∈ ids then setState st b else b

theorem recoverMark_id (ids : List Nat) (st : String) (b : Build) :
    (recoverMark ids st b).id = b.id := by
  unfold recoverMark
  split <;> rfl

theorem map_recoverMark_ids (bs : List Build) (ids : List Nat) (st : String) :
    (bs.map (recoverMark ids st)).map Build.id = bs.map Build.id := by
  rw [List.map_map]
  apply List.map_congr_left
  intro b _
  simp [Function.comp, recoverMark_id]

/-- The build table after a completed batch: every listed id moved to `st`,
everything else untouched. -/
theorem processRecovery_builds (st : String) :
    ∀ (L : List Build) (w w2 : WState), processRecovery st w L = some w2 →
      w2.builds = w.builds.map (recoverMark (L.map Build.id) st) := by
  intro L
  induction L with
  | nil =>
    intro w w2 h
    simp [processRecovery] at h
    subst h
    simp [recoverMark]
    exact (List.map_id w.builds).symm
  | cons b bs ih =>
    intro w w2 h
    simp only [processRecovery] at h
    split at h
    · simp at h
    · next ts heq =>
      rw [ih _ _ h]
      simp only [updateBuildState, List.map_map]
      apply List.map_congr_left
      intro x _
      simp only [Function.comp, recoverMark, List.map_cons, List.mem_cons]
      by_cases h1 : x.id = b.id
      · by_cases h2 : x.id ∈ bs.map Build.id <;> simp [h1, h2, setState]
      · by_cases h2 : x.id ∈ bs.map Build.id <;> simp [h1, h2, setState]

theorem findBuild_map (g : Build → Build) (hg : ∀ b, (g b).id = b.id)
    (l : List Build) (j : Nat) :
    findBuild (l.map g) j = (findBuild l j).map g :=
  find_map_build g hg j l

/-- For a member of a duplicate-free build table, membership of its id among
the deb builds in state `st` is exactly its own state/kind predicate. -/
theorem mem_debBuilds_ids (w : WState) (hbid : (w.builds.map Build.id).Nodup)
    (st : String) (b : Build) (hb : b ∈ w.builds) :
    b.id ∈ (debBuildsIn w st).map Build.id ↔
      (b.buildstate = st ∧ b.buildtype = "deb") := by
  constructor
  · intro h
    obtain ⟨y, hy, hyid⟩ := List.mem_map.mp h
    have hyw : y ∈ w.builds := List.mem_of_mem_filter hy
    have hyb : y = b := mem_id_unique w.builds hbid hyw hb hyid
    subst hyb
    simpa using (List.mem_filter.mp hy).2
  · rintro ⟨h1, h2⟩
    exact List.mem_map_of_mem Build.id
      (List.mem_filter.mpr ⟨hb, by simp [h1, h2]⟩)

theorem debBuilds_ids_nodup (w : WState) (hbid : (w.builds.map Build.id).Nodup)
    (st : String) : ((debBuildsIn w st).map Build.id).Nodup :=
  ((List.filter_sublist w.builds).map Build.id).nodup hbid

/-- The task table after a completed batch: tasks of unlisted builds
survive; with at most one task per build, no task of a listed build
remains. -/
theorem processRecovery_tasks (st : String) :
    ∀ (L : List Build) (w w2 : WState), processRecovery st w L = some w2 →
      (w.tasks.map BuildTask.buildId).Nodup →
      (∀ t ∈ w.tasks, t.buildId ∉ L.map Build.id → t ∈ w2.tasks) ∧
      (∀ t ∈ w2.tasks, t.buildId ∈ L.map Build.id → False) := by
  intro L
  induction L with
  | nil =>
    intro w w2 h _
    simp [processRecovery] at h
    subst h
    exact ⟨fun t ht _ => ht, fun t _ h => by simp at h⟩
  | cons b bs ih =>
    intro w w2 h hnd
    simp only [processRecovery] at h
    split at h
    · simp at h
    · next ts heq =>
      have hsub := deleteFirstTask_sublist b.id w.tasks ts heq
      have hnd2 : (ts.map BuildTask.buildId).Nodup := (hsub.map _).nodup hnd
      obtain ⟨ihA, ihB⟩ := ih _ _ h hnd2
      constructor
      · intro t ht hnot
        simp only [List.map_cons, List.mem_cons, not_or] at hnot
        exact ihA t (deleteFirstTask_mem b.id w.tasks ts heq t ht hnot.1) hnot.2
      · intro t ht hmem
        rcases List.mem_cons.mp hmem with h1 | h2
        · have hts : t ∈ ts :=
            (processRecovery_frame st bs _ _ h).1.subset ht
          exact deleteFirstTask_removed b.id w.tasks ts hnd heq t hts h1
        · exact ihB t ht h2

/-- C8: with pairwise-distinct build ids, at most one BuildTask per build
and a BuildTask present for every deb build in `scheduled` or `building`
state, `startup_scheduling` completes; afterwards every scheduled deb build
is in `needs_build` with its BuildTask removed, every building deb build is
in `failed` with its BuildTask removed, and every other build is
unchanged. -/
theorem C8_startup_recovery (w : WState)
    (hbid : (w.builds.map Build.id).Nodup)
    (htid : (w.tasks.map BuildTask.buildId).Nodup)
    (htask : ∀ b ∈ w.builds, b.buildtype = "deb" →
      b.buildstate = "scheduled" ∨ b.buildstate = "building" →
      ∃ t ∈ w.tasks, t.buildId = b.id) :
    ∃ w2, startup_scheduling w = some w2 ∧
      ∀ b ∈ w.builds,
        (b.buildstate = "scheduled" ∧ b.buildtype = "deb" →
          findBuild w2.builds b.id = some (setState "needs_build" b) ∧
          ∀ t ∈ w2.tasks, t.buildId ≠ b.id) ∧
        (b.buildstate = "building" ∧ b.buildtype = "deb" →
          findBuild w2.builds b.id = some (setState "failed" b) ∧
          ∀ t ∈ w2.tasks, t.buildId ≠ b.id) ∧
        (¬((b.buildstate = "scheduled" ∨ b.buildstate = "building") ∧
            b.buildtype = "deb") →
          findBuild w2.builds b.id = some b) := by
  have hL1nd := debBuilds_ids_nodup w hbid "scheduled"
  have hL1task : ∀ b ∈ debBuildsIn w "scheduled", ∃ t ∈ w.tasks, t.buildId = b.id := by
    intro b hb
    have hmem := List.mem_filter.mp hb
    have hprops : b.buildstate = "scheduled" ∧ b.buildtype = "deb" := by
      simpa using hmem.2
    exact htask b hmem.1 hprops.2 (Or.inl hprops.1)
  obtain ⟨w1, hw1⟩ :=
    processRecovery_completes "needs_build" (debBuildsIn w "scheduled") w hL1nd hL1task
  have hb1 : w1.builds = w.builds.map
      (recoverMark ((debBuildsIn w "scheduled").map Build.id) "needs_build") :=
    processRecovery_builds _ _ _ _ hw1
  have hids1 : w1.builds.map Build.id = w.builds.map Build.id := by
    rw [hb1]
    exact map_recoverMark_ids _ _ _
  have hbid1 : (w1.builds.map Build.id).Nodup := by
    rw [hids1]
    exact hbid
  have hframe1 := processRecovery_frame "needs_build" (debBuildsIn w "scheduled") w w1 hw1
  have htid1 : (w1.tasks.map BuildTask.buildId).Nodup := (hframe1.1.map _).nodup htid
  obtain ⟨hT1A, hT1B⟩ :=
    processRecovery_tasks "needs_build" (debBuildsIn w "scheduled") w w1 hw1 htid
  have hJ1 : ∀ b ∈ w.builds, (b.id ∈ (debBuildsIn w "scheduled").map Build.id ↔
      (b.buildstate = "scheduled" ∧ b.buildtype = "deb")) :=
    fun b hb => mem_debBuilds_ids w hbid "scheduled" b hb
  have hL2nd := debBuilds_ids_nodup w1 hbid1 "building"
  have hJ2 : ∀ y ∈ w1.builds, (y.id ∈ (debBuildsIn w1 "building").map Build.id ↔
      (y.buildstate = "building" ∧ y.buildtype = "deb")) :=
    fun y hy => mem_debBuilds_ids w1 hbid1 "building" y hy
  have hL2task : ∀ b2 ∈ debBuildsIn w1 "building", ∃ t ∈ w1.tasks, t.buildId = b2.id := by
    intro b2 hb2
    have hmem := List.mem_filter.mp hb2
    have hprops : b2.buildstate = "building" ∧ b2.buildtype = "deb" := by
      simpa using hmem.2
    have hmem1 : b2 ∈ w1.builds := hmem.1
    rw [hb1] at hmem1
    obtain ⟨y, hy, hgy⟩ := List.mem_map.mp hmem1
    by_cases hyJ : y.id ∈ (debBuildsIn w "scheduled").map Build.id
    · exfalso
      unfold recoverMark at hgy
      rw [if_pos hyJ] at hgy
      rw [← hgy] at hprops
      have hfalse : ("needs_build" : String) = "building" := hprops.1
      exact absurd hfalse (by decide)
    · unfold recoverMark at hgy
      rw [if_neg hyJ] at hgy
      subst hgy
      obtain ⟨t, ht, htb⟩ := htask y hy hprops.2 (Or.inr hprops.1)
      refine ⟨t, hT1A t ht ?_, htb⟩
      rw [htb]
      exact hyJ
  obtain ⟨w2, hw2⟩ :=
    processRecovery_completes "failed" (debBuildsIn w1 "building") w1 hL2nd hL2task
  have hb2 : w2.builds = w1.builds.map
      (recoverMark ((debBuildsIn w1 "building").map Build.id) "failed") :=
    processRecovery_builds _ _ _ _ hw2
  have hframe2 := processRecovery_frame "failed" (debBuildsIn w1 "building") w1 w2 hw2
  obtain ⟨hT2A, hT2B⟩ :=
    processRecovery_tasks "failed" (debBuildsIn w1 "building") w1 w2 hw2 htid1
  refine ⟨w2, ?_, ?_⟩
  · unfold startup_scheduling
    rw [hw1]
    exact hw2
  · intro b hb
    have hfb : findBuild w.builds b.id = some b := findBuild_of_mem w.builds hbid b hb
    have hfind2 : findBuild w2.builds b.id =
        some (recoverMark ((debBuildsIn w1 "building").map Build.id) "failed"
          (recoverMark ((debBuildsIn w "scheduled").map Build.id) "needs_build" b)) := by
      rw [hb2, findBuild_map _ (recoverMark_id _ _), hb1,
        findBuild_map _ (recoverMark_id _ _), hfb]
      rfl
    have hg1mem :
        recoverMark ((debBuildsIn w "scheduled").map Build.id) "needs_build" b ∈ w1.builds := by
      rw [hb1]
      exact List.mem_map_of_mem _ hb
    refine ⟨?_, ?_, ?_⟩
    · rintro ⟨hs, hd⟩
      have hJ1b : b.id ∈ (debBuildsIn w "scheduled").map Build.id := (hJ1 b hb).mpr ⟨hs, hd⟩
      have hg1b : recoverMark ((debBuildsIn w "scheduled").map Build.id) "needs_build" b =
          setState "needs_build" b := by
        unfold recoverMark
        rw [if_pos hJ1b]
      constructor
      · rw [hfind2, hg1b]
        have hmemy : setState "needs_build" b ∈ w1.builds := by
          rw [← hg1b]
          exact hg1mem
        have hnotJ2 :
            (setState "needs_build" b).id ∉ (debBuildsIn w1 "building").map Build.id := by
          intro hcon
          have hfalse : ("needs_build" : String) = "building" := ((hJ2 _ hmemy).mp hcon).1
          exact absurd hfalse (by decide)
        unfold recoverMark
        rw [if_neg hnotJ2]
      · intro t ht heq
        exact hT1B t (hframe2.1.subset ht) (heq ▸ hJ1b)
    · rintro ⟨hs, hd⟩
      have hnotJ1 : b.id ∉ (debBuildsIn w "scheduled").map Build.id := by
        intro hcon
        have hcs := ((hJ1 b hb).mp hcon).1
        rw [hs] at hcs
        exact absurd hcs (by decide)
      have hg1b : recoverMark ((debBuildsIn w "scheduled").map Build.id) "needs_build" b = b := by
        unfold recoverMark
        rw [if_neg hnotJ1]
      have hmemb1 : b ∈ w1.builds := by
        rw [← hg1b]
        exact hg1mem
      have hJ2b : b.id ∈ (debBuildsIn w1 "building").map Build.id :=
        (hJ2 b hmemb1).mpr ⟨hs, hd⟩
      constructor
      · rw [hfind2, hg1b]
        unfold recoverMark
        rw [if_pos hJ2b]
      · intro t ht heq
        exact hT2B t ht (heq ▸ hJ2b)
    · intro hnot
      have hnotJ1 : b.id ∉ (debBuildsIn w "scheduled").map Build.id := by
        intro hcon
        obtain ⟨hs, hd⟩ := (hJ1 b hb).mp hcon
        exact hnot ⟨Or.inl hs, hd⟩
      have hg1b : recoverMark ((debBuildsIn w "scheduled").map Build.id) "needs_build" b = b := by
        unfold recoverMark
        rw [if_neg hnotJ1]
      have hmemb1 : b ∈ w1.builds := by
        rw [← hg1b]
        exact hg1mem
      have hnotJ2 : b.id ∉ (debBuildsIn w1 "building").map Build.id := by
        intro hcon
        obtain ⟨hs, hd⟩ := (hJ2 b hmemb1).mp hcon
        exact hnot ⟨Or.inr hs, hd⟩
      rw [hfind2, hg1b]
      unfold recoverMark
      rw [if_neg hnotJ2]

/-- Worker state for the C8 witness: one scheduled deb build and one
building deb build, each with a BuildTask, plus a succeeded build. -/
def c8W : WState :=
  { builds :=
      [{ id := 1, buildstate := "scheduled", buildtype := "deb", is_ci := false, topicId := 0 },
       { id := 2, buildstate := "building", buildtype := "deb", is_ci := false, topicId := 0 },
       { id := 3, buildstate := "successful", buildtype := "deb", is_ci := false, topicId := 0 }],
    tasks := [{ id := 71, buildId := 1 }, { id := 72, buildId := 2 }],
    logs := [], mails := [] }

theorem C8_witness :
    ∃ w2, startup_scheduling c8W = some w2 ∧
      ∀ b ∈ c8W.builds,
        (b.buildstate = "scheduled" ∧ b.buildtype = "deb" →
          findBuild w2.builds b.id = some (setState "needs_build" b) ∧
          ∀ t ∈ w2.tasks, t.buildId ≠ b.id) ∧
        (b.buildstate = "building" ∧ b.buildtype = "deb" →
          findBuild w2.builds b.id = some (setState "failed" b) ∧
          ∀ t ∈ w2.tasks, t.buildId ≠ b.id) ∧
        (¬((b.buildstate = "scheduled" ∨ b.buildstate = "building") ∧
            b.buildtype = "deb") →
          findBuild w2.builds b.id = some b) :=
  C8_startup_recovery c8W (by decide) (by decide) (by decide)

/-- C9: when no build has the given id, the handler is a no-op on the
modelled state; when the build exists and has a BuildTask, the handler
writes one error log line, sets the build to `failed`, deletes the
BuildTask, and appends exactly one mail notification when `is_ci` is false
and none when it is true. -/
theorem C9_failed_handler (w : WState) (build_id : Nat) :
    (findBuild w.builds build_id = none → build_failed w build_id = .ok w) ∧
    (∀ build, findBuild w.builds build_id = some build →
      ∀ ts, deleteFirstTask w.tasks build_id = some ts →
        build_failed w build_id = .ok
          { builds := updateBuildState w.builds build_id "failed",
            tasks := ts,
            logs := w.logs ++
              [(build.topicId, "E: build " ++ toString build_id ++ " failed\n")],
            mails := if build.is_ci then w.mails else w.mails ++ [build_id] }) := by
  constructor
  · intro hnone
    unfold build_failed
    rw [hnone]
  · intro build hfind ts hdel
    unfold build_failed
    simp only [hfind]
    have hdel2 : deleteFirstTask (failedCommitted w build build_id).tasks build_id =
        some ts := hdel
    simp only [hdel2]
    by_cases hci : build.is_ci
    · rw [if_pos hci, if_pos hci]
      rfl
    · rw [if_neg hci, if_neg hci]
      rfl

/-- Worker state for the C9 witness: one non-CI building deb build with a
BuildTask. -/
def c9W : WState :=
  { builds :=
      [{ id := 5, buildstate := "building", buildtype := "deb", is_ci := false, topicId := 3 }],
    tasks := [{ id := 80, buildId := 5 }],
    logs := [], mails := [] }

theorem C9_witness :
    build_failed c9W 5 = .ok
      { builds := updateBuildState c9W.builds 5 "failed",
        tasks := [],
        logs := c9W.logs ++ [(3, "E: build " ++ toString 5 ++ " failed\n")],
        mails := c9W.mails ++ [5] } := by
  have h := (C9_failed_handler c9W 5).2
    { id := 5, buildstate := "building", buildtype := "deb", is_ci := false, topicId := 3 }
    (by decide) [] (by decide)
  simpa using h

/-- C10: every BuildTask removal presupposes a BuildTask.  At startup
recovery, a scheduled or building deb build with no BuildTask makes
`startup_scheduling` raise (`session.delete(None)`) instead of completing;
in the `_failed` handler the build's `failed` transition is committed
before the raise, so the BuildTask deletion and the notification dispatch
do not happen (the raised state has the failed build but the original task
table and mail list). -/
theorem C10_missing_buildtask (w : WState)
    (hbid : (w.builds.map Build.id).Nodup) :
    ((∃ b ∈ w.builds, b.buildstate = "scheduled" ∧ b.buildtype = "deb" ∧
        ∀ t ∈ w.tasks, t.buildId ≠ b.id) →
      startup_scheduling w = none) ∧
    ((∃ b ∈ w.builds, b.buildstate = "building" ∧ b.buildtype = "deb" ∧
        ∀ t ∈ w.tasks, t.buildId ≠ b.id) →
      startup_scheduling w = none) ∧
    (∀ build_id build, findBuild w.builds build_id = some build →
      (∀ t ∈ w.tasks, t.buildId ≠ build_id) →
      build_failed w build_id = .raised (failedCommitted w build build_id) ∧
      (failedCommitted w build build_id).builds =
        updateBuildState w.builds build_id "failed" ∧
      (failedCommitted w build build_id).tasks = w.tasks ∧
      (failedCommitted w build build_id).mails = w.mails) := by
  refine ⟨?_, ?_, ?_⟩
  · rintro ⟨b, hb, hs, hd, hno⟩
    have hmem : b ∈ debBuildsIn w "scheduled" :=
      List.mem_filter.mpr ⟨hb, by simp [hs, hd]⟩
    have h1 : processRecovery "needs_build" w (debBuildsIn w "scheduled") = none :=
      processRecovery_raises "needs_build" _ w ⟨b, hmem, hno⟩
    unfold startup_scheduling
    rw [h1]
  · rintro ⟨b, hb, hs, hd, hno⟩
    cases hph1 : processRecovery "needs_build" w (debBuildsIn w "scheduled") with
    | none =>
      unfold startup_scheduling
      rw [hph1]
    | some w1 =>
      have hb1 : w1.builds = w.builds.map
          (recoverMark ((debBuildsIn w "scheduled").map Build.id) "needs_build") :=
        processRecovery_builds _ _ _ _ hph1
      have hnotJ1 : b.id ∉ (debBuildsIn w "scheduled").map Build.id := by
        intro hcon
        have hcs := ((mem_debBuilds_ids w hbid "scheduled" b hb).mp hcon).1
        rw [hs] at hcs
        exact absurd hcs (by decide)
      have hg1b : recoverMark ((debBuildsIn w "scheduled").map Build.id) "needs_build" b
          = b := by
        unfold recoverMark
        rw [if_neg hnotJ1]
      have hmemb1 : b ∈ w1.builds := by
        rw [hb1, ← hg1b]
        exact List.mem_map_of_mem _ hb
      have hmem2 : b ∈ debBuildsIn w1 "building" :=
        List.mem_filter.mpr ⟨hmemb1, by simp [hs, hd]⟩
      have hno1 : ∀ t ∈ w1.tasks, t.buildId ≠ b.id := by
        intro t ht
        exact hno t
          ((processRecovery_frame "needs_build" _ w w1 hph1).1.subset ht)
      have h2 : processRecovery "failed" w1 (debBuildsIn w1 "building") = none :=
        processRecovery_raises "failed" _ w1 ⟨b, hmem2, hno1⟩
      unfold startup_scheduling
      rw [hph1]
      exact h2
  · intro build_id build hfind hno
    refine ⟨?_, rfl, rfl, rfl⟩
    unfold build_failed
    simp only [hfind]
    have hdel : deleteFirstTask (failedCommitted w build build_id).tasks build_id =
        none := (deleteFirstTask_eq_none build_id w.tasks).mpr hno
    rw [hdel]

/-- Worker state for the C10 witness: a scheduled deb build and a building
deb build, neither with a BuildTask. -/
def c10W : WState :=
  { builds :=
      [{ id := 5, buildstate := "building", buildtype := "deb", is_ci := false, topicId := 3 },
       { id := 6, buildstate := "scheduled", buildtype := "deb", is_ci := false, topicId := 3 }],
    tasks := [], logs := [], mails := [] }

theorem C10_witness :
    ((∃ b ∈ c10W.builds, b.buildstate = "scheduled" ∧ b.buildtype = "deb" ∧
        ∀ t ∈ c10W.tasks, t.buildId ≠ b.id) →
      startup_scheduling c10W = none) ∧
    ((∃ b ∈ c10W.builds, b.buildstate = "building" ∧ b.buildtype = "deb" ∧
        ∀ t ∈ c10W.tasks, t.buildId ≠ b.id) →
      startup_scheduling c10W = none) ∧
    (∀ build_id build, findBuild c10W.builds build_id = some build →
      (∀ t ∈ c10W.tasks, t.buildId ≠ build_id) →
      build_failed c10W build_id = .raised (failedCommitted c10W build build_id) ∧
      (failedCommitted c10W build build_id).builds =
        updateBuildState c10W.builds build_id "failed" ∧
      (failedCommitted c10W build build_id).tasks = c10W.tasks ∧
      (failedCommitted c10W build build_id).mails = c10W.mails) :=
  C10_missing_buildtask c10W (by decide)

end Molior
